import Mathlib

/-!
Verification of the iroha node sources against their natural-language
specification.  Each definition is a shallow embedding of one function of the
C++ sources; the theorems at the end of the file settle the spec claims.

Conventions used throughout:
* machine integers are `Nat`/`Int` with explicit wraparound (`% 2^w`) where the
  source's fixed width matters;
* fallible C++ code (`iroha::expected::Result`, thrown exceptions) becomes
  `Except`;
* external helpers whose sources are not part of this snapshot
  (`checkPermissions`, `accountPermissions`, the KV typed helpers) enter as
  boolean/functional parameters of the embedded functions;
* the per-command savepoint of the block appliance (`§7` of the spec: a failed
  command rolls the store back to the savepoint) is `commandCommit`.
-/

/-- Domain error codes of the command executor
(`ErrorCodes` of `rocksdb_common.hpp`, whose source is outside this snapshot;
the constructors name the enumerators the in-snapshot code mentions, `raw n`
is a literal numeric code such as the `3` passed by `SubtractAssetQuantity`). -/
inductive ErrCode where
  | kNoAccount
  | kNoSignatory
  | kCountNotEnough
  | kNoPermissions
  | kPeersCountIsNotEnough
  | kPublicKeyIsEmpty
  | kEntryMustExist
  | kInvalidAmount
  | kInvalidAssetAmount
  | kIncorrectOldValue
  | kException
  | kNoImplementation
  | raw (n : Nat)
deriving DecidableEq, Repr

/-- Per-command savepoint semantics: a command that returns an error leaves the
store as it was before the command started (spec §7). -/
def commandCommit {σ ε : Type} (st : σ) (r : Except ε σ) : σ :=
  match r with
  | .ok st2 => st2
  | .error _ => st

/-! ### Rounds and the synchronization-event round switch (C1)

`iroha::consensus::Round` and the `switch` of
`OnDemandOrderingInit::processSynchronizationEvent`
(`src/unnamed/part_001`, lines 176-187). -/

/-- Consensus round: block height plus reject counter. -/
structure Round where
  block_round : Nat
  reject_round : Nat
deriving DecidableEq, Repr

/-- Modelled from the spec: the initial reject round value that `block_round`
increments reset to ("on commit, `block_round` increments and `reject_round`
resets to a known initial").  `on_demand_common.cpp` is not part of this
snapshot. -/
def kFirstRejectRound : Nat := 0

/-- Modelled from the spec: `nextCommitRound({h,_}) = {h+1, initial}`.
The defining source (`ordering/impl/on_demand_common.cpp`) is not part of this
snapshot; only its callers are. -/
def nextCommitRound (r : Round) : Round :=
  { block_round := r.block_round + 1, reject_round := kFirstRejectRound }

/-- Modelled from the spec: `nextRejectRound({h,r}) = {h, r+1}`.
The defining source (`ordering/impl/on_demand_common.cpp`) is not part of this
snapshot; only its callers are. -/
def nextRejectRound (r : Round) : Round :=
  { block_round := r.block_round, reject_round := r.reject_round + 1 }

/-- `iroha::synchronizer::SynchronizationOutcomeType`. -/
inductive SynchronizationOutcomeType where
  | kCommit
  | kReject
  | kNothing
deriving DecidableEq, Repr

/-- Round advance performed by
`OnDemandOrderingInit::processSynchronizationEvent` on the event's round
(`src/unnamed/part_001`, lines 176-187): commit advances to the next commit
round, reject and nothing advance to the next reject round. -/
def processSynchronizationEventRound (outcome : SynchronizationOutcomeType)
    (current : Round) : Round :=
  match outcome with
  | .kCommit => nextCommitRound current
  | .kReject => nextRejectRound current
  | .kNothing => nextRejectRound current

/-! ### WSV restorer (C2, C3)

`WsvRestorerImpl::restoreWsv` and `reindexBlocks` of
`src/irohad/ametsuchi/impl/wsv_restorer_impl.cpp`. -/

/-- A block as the restorer observes it: its stored height and hash.
Hashes are abstracted to `Nat`. -/
structure RBlock where
  height : Nat
  hash : Nat
deriving DecidableEq, Repr

/-- The block query used by the restorer: reading a block by height may fail
(`BlockQuery::getBlock`), and the log reports a top height
(`BlockQuery::getTopBlockHeight`). -/
structure BlockQueryM where
  getBlock : Nat → Except String RBlock
  topHeight : Nat

/-- The persisted WSV top-block info (`wsv_ledger_state->top_block_info`). -/
structure TopBlockInfo where
  height : Nat
  top_hash : Nat
deriving DecidableEq, Repr

/-- Observable outcome of a replay: the blocks emitted to the chain validator
(`applied`), the heights that were passed to the proto/interface block
validators (`validated`), and the error if the stream failed. -/
structure ReindexTrace where
  applied : List RBlock
  validated : List Nat
  err : Option String
deriving Repr

/-- The block-emitting loop inside `reindexBlocks`
(`wsv_restorer_impl.cpp`, lines 120-155), over an explicit list of heights:
each height is read, checked for height consistency, validated by the proto
and interface validators unless it is height 1 (the genesis exemption,
lines 135-151), and emitted.  A failure stops the stream; blocks emitted
before the failure were already applied. -/
def reindexLoop (q : BlockQueryM) (pv iv : RBlock → Option String) :
    List Nat → ReindexTrace
  | [] => { applied := [], validated := [], err := none }
  | h :: rest =>
    match q.getBlock h with
    | .error e => { applied := [], validated := [], err := some e }
    | .ok b =>
      if h ≠ b.height then
        { applied := [], validated := [],
          err := some "inconsistent block height in block storage" }
      else if h ≠ 1 then
        match pv b with
        | some e => { applied := [], validated := [h], err := some e }
        | none =>
          match iv b with
          | some e => { applied := [], validated := [h], err := some e }
          | none =>
            let t := reindexLoop q pv iv rest
            { applied := b :: t.applied, validated := h :: t.validated,
              err := t.err }
      else
        let t := reindexLoop q pv iv rest
        { applied := b :: t.applied, validated := t.validated, err := t.err }

/-- `reindexBlocks` (`wsv_restorer_impl.cpp`, lines 102-162): stream the blocks
of heights `starting .. ending` (inclusive) through the validators into the
chain validator; `chainOk` abstracts `ChainValidator::validateAndApply` over
the emitted blocks (its source is outside this snapshot). -/
def reindexBlocks (q : BlockQueryM) (pv iv : RBlock → Option String)
    (chainOk : List RBlock → Bool) (starting ending : Nat) : ReindexTrace :=
  let t := reindexLoop q pv iv (List.range' starting (ending + 1 - starting))
  if t.err.isSome then t
  else if chainOk t.applied then t
  else { t with err := some "Cannot validate and apply blocks" }

/-- One catch-up pass of `WsvRestorerImpl::restoreWsv`
(`wsv_restorer_impl.cpp`, lines 190-255): read the persisted ledger state
(absent means height 0), fail if it is ahead of the block log or if the block
at its height has a different hash, otherwise reindex heights
`wsv_height + 1 .. top`. -/
def restoreWsvOnce (wsvState : Option TopBlockInfo) (q : BlockQueryM)
    (pv iv : RBlock → Option String) (chainOk : List RBlock → Bool) :
    ReindexTrace :=
  match wsvState with
  | some info =>
    if info.height > q.topHeight then
      { applied := [], validated := [],
        err := some "WSV state is more recent than block storage" }
    else
      match q.getBlock info.height with
      | .ok b =>
        if b.hash ≠ info.top_hash then
          { applied := [], validated := [],
            err := some "WSV top block hash does not match block storage" }
        else reindexBlocks q pv iv chainOk (info.height + 1) q.topHeight
      | .error e =>
        { applied := [], validated := [], err := some e }
  | none => reindexBlocks q pv iv chainOk 1 q.topHeight

/-- The backward probe of the wait-for-new-blocks loop AS WRITTEN
(`wsv_restorer_impl.cpp`, lines 266-271).  The C++ re-declares `block_result`
inside the loop body, shadowing the variable tested by the loop condition, so
the condition keeps seeing the result of the FIRST read
(`firstReadError`) and never the re-reads:

    auto block_result = block_query->getBlock(new_last_block);
    while (hasError(block_result) && (new_last_block > last_block_in_storage)) {
      --new_last_block;
      auto block_result = block_query->getBlock(new_last_block);
    };

Structural recursion on the candidate height mirrors the decrement. -/
def probeLoopCode (firstReadError : Bool) (restored : Nat) : Nat → Nat
  | 0 => 0
  | cand + 1 =>
    if firstReadError && decide (restored < cand + 1) then
      probeLoopCode firstReadError restored cand
    else cand + 1

/-- The backward probe as the spec states the intent: decrement the candidate
while the block at the CURRENT candidate height is unreadable and the candidate
is still above the restored height. -/
def probeLoopIntended (readable : Nat → Bool) (restored : Nat) : Nat → Nat
  | 0 => 0
  | cand + 1 =>
    if !readable (cand + 1) && decide (restored < cand + 1) then
      probeLoopIntended readable restored cand
    else cand + 1

/-- One wait-for-new-blocks iteration of the code: reload gives top height
`top`, the first read probes `top`, then the (shadowed-variable) loop runs. -/
def waitProbeCode (readable : Nat → Bool) (restored top : Nat) : Nat :=
  probeLoopCode (!readable top) restored top

/-- One wait-for-new-blocks iteration as specified: probe backward from `top`
re-reading at each candidate. -/
def waitProbeIntended (readable : Nat → Bool) (restored top : Nat) : Nat :=
  probeLoopIntended readable restored top

/-- Heights replayed by a wait iteration whose probe settled on `cand`
(`wsv_restorer_impl.cpp`, lines 273-279): a new tail `restored + 1 .. cand`
is restored only when `cand > restored`. -/
def waitReplayHeights (restored cand : Nat) : List Nat :=
  if restored < cand then List.range' (restored + 1) (cand - restored) else []

/-! ### Command executor state slices (C4 - C8)

`RocksDbCommandExecutor` operates through typed key helpers on one account /
asset / peer-set at a time; each embedded command receives the slice of the
store its keys address.  The permission helpers (`checkPermissions`,
`checkGrantablePermissions`, `accountPermissions`) live in
`rocksdb_common.hpp`, outside this snapshot; their verdicts enter as boolean
parameters. -/

/-- Slice of the store addressed by one account's quorum key and signatory key
range (`fmtstrings::kQuorum`, `fmtstrings::kPathSignatories`). -/
structure AccountSlice where
  quorum : Option Nat
  signatories : List String
deriving DecidableEq, Repr

/-- `RocksDbCommandExecutor::operator()(RemoveSignatory)`
(`soci_string_view.hpp`, lines 931-1002).  With validation: quorum must exist
(else `kNoAccount`), the applicable permission check must pass (role
`kRemoveSignatory` for self, grantable `kRemoveMySignatory` otherwise), the
signatory must exist (else `kNoSignatory`), and the enumerated signatory count
must exceed the quorum (else `kCountNotEnough`); then the signatory key is
deleted. -/
def removeSignatory (st : AccountSlice) (pubkey : String)
    (creatorIsTarget hasRolePerm hasGrantablePerm do_validation : Bool) :
    Except ErrCode AccountSlice :=
  if do_validation then
    match st.quorum with
    | none => .error .kNoAccount
    | some quorum =>
      if creatorIsTarget && !hasRolePerm then .error .kNoPermissions
      else if !creatorIsTarget && !hasGrantablePerm then .error .kNoPermissions
      else if pubkey ∉ st.signatories then .error .kNoSignatory
      else
        let counter := st.signatories.length
        if counter ≤ quorum then .error .kCountNotEnough
        else .ok { st with signatories := st.signatories.erase pubkey }
  else .ok { st with signatories := st.signatories.erase pubkey }

/-- Two's-complement value of a C `int` (32 bits) holding the unsigned count
`n`; incrementing past `INT_MAX` is modelled as wraparound. -/
def int32OfCount (n : Nat) : Int :=
  let m : Nat := n % 2 ^ 32
  if m < 2 ^ 31 then (m : Int) else (m : Int) - 2 ^ 32

/-- `RocksDbCommandExecutor::operator()(SetQuorum)`
(`soci_string_view.hpp`, lines 1127-1184).  Validation checks account
existence and permissions; then - unconditionally - the signatory keys are
counted into a SIGNED `int counter`, and the command fails with
`kCountNotEnough` when `newQuorum > counter` (the comparison the source
performs), else the quorum key is overwritten. -/
def setQuorumCode (st : AccountSlice) (newQuorum : Nat)
    (accountExists permOk do_validation : Bool) : Except ErrCode AccountSlice :=
  if do_validation && !accountExists then .error .kEntryMustExist
  else if do_validation && !permOk then .error .kNoPermissions
  else
    let counter : Int := int32OfCount st.signatories.length
    if (newQuorum : Int) > counter then .error .kCountNotEnough
    else .ok { st with quorum := some newQuorum }

/-- Modelled from the spec: SetQuorum with "unsigned 64-bit counters
throughout" - the behaviour the spec states in place of the source's signed
`int counter`. -/
def setQuorumSpecU64 (st : AccountSlice) (newQuorum : Nat)
    (accountExists permOk do_validation : Bool) : Except ErrCode AccountSlice :=
  if do_validation && !accountExists then .error .kEntryMustExist
  else if do_validation && !permOk then .error .kNoPermissions
  else if newQuorum % 2 ^ 64 > st.signatories.length % 2 ^ 64 then
    .error .kCountNotEnough
  else .ok { st with quorum := some newQuorum }

/-- The peer-set slice: `peers/count`, and the `peers/address` and `peers/tls`
key ranges as association lists keyed by public key. -/
structure PeerState where
  peersCount : Option Nat
  address : List (String × String)
  tls : List (String × String)
deriving DecidableEq, Repr

/-- Deletion of the single entry stored under a key (`kDbOperation::kDel`). -/
def eraseKey (pk : String) : List (String × String) → List (String × String)
  | [] => []
  | e :: rest => if e.1 = pk then rest else e :: eraseKey pk rest

/-- `RocksDbCommandExecutor::operator()(RemovePeer)`
(`soci_string_view.hpp`, lines 897-929): empty pubkey fails, validation checks
the `kRemovePeer` permission, the peer address must exist, the peer count must
exist, a count of exactly 1 fails with `kPeersCountIsNotEnough`, otherwise the
count is decremented (64-bit unsigned arithmetic) and the address and TLS
entries are deleted. -/
def removePeer (st : PeerState) (pubkey : String)
    (permOk do_validation : Bool) : Except ErrCode PeerState :=
  if pubkey = "" then .error .kPublicKeyIsEmpty
  else if do_validation && !permOk then .error .kNoPermissions
  else
    match st.address.lookup pubkey with
    | none => .error .kEntryMustExist
    | some _ =>
      match st.peersCount with
      | none => .error .kEntryMustExist
      | some count =>
        if count = 1 then .error .kPeersCountIsNotEnough
        else
          .ok { peersCount := some ((count + (2 ^ 64 - 1)) % 2 ^ 64),
                address := eraseKey pubkey st.address,
                tls := eraseKey pubkey st.tls }

/-- Modelled from the spec: the fixed-point decimal `Amount` ("unsigned integer
mantissa + precision; a negative intermediate yields a sentinel whose first
character signals overflow/underflow").  `shared_model` Amount sources are not
part of this snapshot.  The mantissa is the value scaled by `10 ^ precision`;
a negative mantissa is the state whose string representation starts with
the sentinel character. -/
structure Amount where
  mantissa : Int
  precision : Nat
deriving DecidableEq, Repr

/-- Modelled from the spec: fixed-point subtraction, operands aligned to the
larger precision. -/
def Amount.sub (a b : Amount) : Amount :=
  let p := max a.precision b.precision
  { mantissa := a.mantissa * 10 ^ (p - a.precision)
        - b.mantissa * 10 ^ (p - b.precision),
    precision := p }

/-- String representation of `a` starts with the sentinel character
(the source tests `toStringRepr()[0] == 'N'`). -/
def Amount.reprStartsWithSentinel (a : Amount) : Bool :=
  a.mantissa < 0

/-- Structured content of the error messages `SubtractAssetQuantity` formats,
keeping the format arguments the source interpolates. -/
inductive SubtractMsg where
  | noPermissions
  | noAsset
  | precisionMismatch (assetId creator : String) (expected got : Nat)
  | invalidAmount (resultMantissa : Int) (resultPrecision : Nat)
      (creator : String)
deriving DecidableEq, Repr

/-- Slice of the store addressed by `SubtractAssetQuantity`: the asset's
registered precision (`forAsset`) and the creator's balance of that asset
(`forAccountAsset`). -/
structure AssetSlice where
  assetPrecision : Option Nat
  balance : Option Amount
deriving DecidableEq, Repr

/-- `RocksDbCommandExecutor::operator()(SubtractAssetQuantity)`
(`soci_string_view.hpp`, lines 1186-1242): validation checks the subtract
permission; the asset must exist; the literal error code `3` is returned when
the asset's registered precision is LESS than the command amount's precision
(the source compares `*opt_result < command.amount().precision()`); the
balance (zero of the asset's precision when absent) minus the amount is
rejected with `kInvalidAmount` when its representation carries the negative
sentinel, else it is written back. -/
def subtractAssetQuantity (st : AssetSlice) (assetId creator : String)
    (amount : Amount) (permOk do_validation : Bool) :
    Except (ErrCode × SubtractMsg) AssetSlice :=
  if do_validation && !permOk then .error (.kNoPermissions, .noPermissions)
  else
    match st.assetPrecision with
    | none => .error (.kEntryMustExist, .noAsset)
    | some prec =>
      if prec < amount.precision then
        .error (.raw 3,
          .precisionMismatch assetId creator prec amount.precision)
      else
        let start : Amount :=
          match st.balance with
          | some b => b
          | none => { mantissa := 0, precision := prec }
        let result := start.sub amount
        if result.reprStartsWithSentinel then
          .error (.kInvalidAmount,
            .invalidAmount result.mantissa result.precision creator)
        else .ok { st with balance := some result }

/-- Slice of the store addressed by `CompareAndSetAccountDetail` at one
`(account, writer, key)` triple: account existence, the stored detail value,
and the account's `details_count`. -/
structure DetailSlice where
  accountExists : Bool
  detail : Option String
  detailsCount : Option Nat
deriving DecidableEq, Repr

/-- `RocksDbCommandExecutor::operator()(CompareAndSetAccountDetail)`
(`soci_string_view.hpp`, lines 583-662), instrumented with the number of
`forAccountDetail` reads it performs (second component).  After the permission
and account checks the stored detail is read; `eq` holds when both `oldValue`
and the stored value are present and equal, `same` when the emptiness test of
the `checkEmpty` option holds; on `eq || same` the source reads the SAME
detail key a second time (the shadowed `opt_detail` of lines 632-639), writes
the new value and bumps `details_count` when the re-read found nothing;
otherwise the command fails with `kIncorrectOldValue`. -/
def compareAndSetDetail (st : DetailSlice) (value : String)
    (oldValue : Option String) (checkEmpty : Bool)
    (permOk do_validation : Bool) :
    Except ErrCode DetailSlice × Nat :=
  if do_validation && !permOk then (.error .kNoPermissions, 0)
  else if !st.accountExists then (.error .kEntryMustExist, 0)
  else
    let opt_detail := st.detail
    let eq : Bool :=
      match oldValue, opt_detail with
      | some ov, some d => d = ov
      | _, _ => false
    let same : Bool :=
      if checkEmpty then oldValue.isNone && opt_detail.isNone
      else opt_detail.isNone
    if eq || same then
      let opt_detail2 := st.detail
      let st1 := { st with detail := some value }
      if opt_detail2.isNone then
        (.ok { st1 with
            detailsCount := some ((st.detailsCount.getD 0) + 1) }, 2)
      else (.ok st1, 2)
    else (.error .kIncorrectOldValue, 1)

/-! ### Pending-transaction store pagination (C9)

`PendingTransactionStorageImpl::getPendingTransactions` itself is not part of
this snapshot (only its tests, `src/unnamed/part_005`); the retrieval is
modelled from spec §4.4.  A creator's state is the list of that creator's
batches in insertion order; a batch is the list of its transaction hashes. -/

/-- `PendingTransactionsPageResponse::BatchInfo`: first transaction hash and
size of the first batch that did not fit the page. -/
structure BatchInfo where
  first_tx_hash : Nat
  batch_size : Nat
deriving DecidableEq, Repr

/-- `PendingTransactionStorage::Response`. -/
structure PendingResponse where
  transactions : List Nat
  all_transactions_size : Nat
  next_batch_info : Option BatchInfo
deriving DecidableEq, Repr

/-- `PendingTransactionStorage::ErrorCode`. -/
inductive PendingError where
  | kNotFound
deriving DecidableEq, Repr

/-- Total transaction count across a creator's batches
(`all_transactions_size` of spec §4.4). -/
def batchesTxCount (batches : List (List Nat)) : Nat :=
  (batches.map List.length).sum

/-- Modelled from the spec: "Starting with `startHash` positions the iterator
at the batch whose first tx has that hash (NotFound if none)." -/
def startAtBatch (h : Nat) : List (List Nat) → Option (List (List Nat))
  | [] => none
  | b :: bs => if b.head? = some h then some (b :: bs) else startAtBatch h bs

/-- Modelled from the spec: greedy page assembly over whole batches -
"Transactions are returned in batch-insertion order, grouped by batch (batches
are indivisible in a page).  A page ends just before the batch that would
overflow `pageSize`.  `nextBatchInfo = {first_tx_hash, batch_size}` references
the first uncut batch." -/
def collectPage : List (List Nat) → Nat → List Nat × Option BatchInfo
  | [], _ => ([], none)
  | b :: bs, room =>
    if b.length ≤ room then
      let r := collectPage bs (room - b.length)
      (b ++ r.1, r.2)
    else ([], some { first_tx_hash := b.head?.getD 0, batch_size := b.length })

/-- Modelled from the spec: `getPendingTransactions(creator, pageSize,
startHash?)` of §4.4, restricted to one creator's batch list (the
implementation source is not in this snapshot; its tests are
`src/unnamed/part_005`). -/
def getPendingTransactions (batches : List (List Nat)) (pageSize : Nat)
    (startHash : Option Nat) : Except PendingError PendingResponse :=
  let positioned :=
    match startHash with
    | none => some batches
    | some h => startAtBatch h batches
  match positioned with
  | none => .error .kNotFound
  | some bs =>
    let page := collectPage bs pageSize
    .ok { transactions := page.1,
          all_transactions_size := batchesTxCount batches,
          next_batch_info := page.2 }

/-! ### Totality of `RocksDbCommandExecutor::execute` (C10)

`soci_string_view.hpp`, lines 337-388: the visitor body runs inside a
`try`; a `std::exception` escaping the permission lookup or the command
application is converted into a `CommandError` with code
`ErrorCodes::kException`. -/

/-- Outcome of running a piece of C++ that may throw: either a returned value
or a thrown exception (its `what()` string). -/
inductive CppOutcome (α : Type) where
  | ret (val : α)
  | thrown (what : String)
deriving DecidableEq, Repr

/-- Error payload of `accountPermissions` (code plus description). -/
structure DbError where
  code : ErrCode
  description : String
deriving DecidableEq, Repr

/-- `iroha::ametsuchi::CommandError`: the failed command's text, the error
code, and the description. -/
structure CommandError where
  command_name : String
  error_code : ErrCode
  error_extra : String
deriving DecidableEq, Repr

/-- Behaviour of the externals `execute` runs for one call: the command's
`toString()`, the result of the validation-time `accountPermissions` lookup,
and the visitor application `(*this)(common, command, ...)` as a function of
the creator permissions (a bitset, abstracted to `Nat`) and the validation
flag.  Either external may throw. -/
structure ExecuteEnv where
  commandToString : String
  accountPermissions : CppOutcome (Except DbError Nat)
  applyCommand : Nat → Bool → CppOutcome (Except (ErrCode × String) Unit)

/-- The `try` body of `RocksDbCommandExecutor::execute`
(`soci_string_view.hpp`, lines 347-381): under validation the creator
permissions are looked up (an error result becomes a `CommandError`, a throw
propagates), then the command is applied with those permissions (empty set
when validation is off), its error tagged with the command text. -/
def executeTryBody (env : ExecuteEnv) (do_validation : Bool) :
    CppOutcome (Except CommandError Unit) :=
  let runCommand (perms : Nat) : CppOutcome (Except CommandError Unit) :=
    match env.applyCommand perms do_validation with
    | .thrown e => .thrown e
    | .ret (.error pe) =>
      .ret (.error { command_name := env.commandToString,
                     error_code := pe.1, error_extra := pe.2 })
    | .ret (.ok _) => .ret (.ok ())
  if do_validation then
    match env.accountPermissions with
    | .thrown e => .thrown e
    | .ret (.error dbe) =>
      .ret (.error { command_name := env.commandToString,
                     error_code := dbe.code, error_extra := dbe.description })
    | .ret (.ok perms) => runCommand perms
  else runCommand 0

/-- `RocksDbCommandExecutor::execute` (`soci_string_view.hpp`, lines 337-388):
the try body wrapped in the catch that turns any `std::exception` into a
`CommandError` with code `kException`. -/
def executeCommand (env : ExecuteEnv) (do_validation : Bool) :
    Except CommandError Unit :=
  match executeTryBody env do_validation with
  | .ret r => r
  | .thrown e =>
    .error { command_name := env.commandToString,
             error_code := .kException, error_extra := e }

/-! ### Theorems settling the claims -/

/-- Claim C1: for every round `{h, r}`, `nextCommitRound({h,r}) = {h+1,
initial reject round}` and `nextRejectRound({h,r}) = {h, r+1}`; on a
synchronization event the ordering pipeline advances the current round to
`nextCommitRound` on outcome `kCommit` and to `nextRejectRound` on `kReject`
and `kNothing`. -/
theorem round_progression_c1 (h r : Nat) :
    nextCommitRound ⟨h, r⟩ = ⟨h + 1, kFirstRejectRound⟩ ∧
    nextRejectRound ⟨h, r⟩ = ⟨h, r + 1⟩ ∧
    processSynchronizationEventRound .kCommit ⟨h, r⟩ =
      nextCommitRound ⟨h, r⟩ ∧
    processSynchronizationEventRound .kReject ⟨h, r⟩ =
      nextRejectRound ⟨h, r⟩ ∧
    processSynchronizationEventRound .kNothing ⟨h, r⟩ =
      nextRejectRound ⟨h, r⟩ :=
  ⟨rfl, rfl, rfl, rfl, rfl⟩



/-- When the replay loop finishes without error, the emitted blocks carry
exactly the requested heights, in order. -/
theorem reindexLoop_heights (q : BlockQueryM) (pv iv : RBlock → Option String) :
    ∀ hs : List Nat, (reindexLoop q pv iv hs).err = none →
      (reindexLoop q pv iv hs).applied.map RBlock.height = hs := by
  intro hs
  induction hs with
  | nil => intro _; rfl
  | cons h rest ih =>
    intro hnone
    cases hq : q.getBlock h with
    | error e => simp [reindexLoop, hq] at hnone
    | ok b =>
      by_cases hh : h = b.height
      · rw [show b = ({ height := h, hash := b.hash } : RBlock) from by
          cases b; simp_all] at hq
        by_cases h1 : h = 1
        · subst h1
          simp only [reindexLoop, hq] at hnone ⊢
          simp at hnone ⊢
          exact ih hnone
        · simp only [reindexLoop, hq] at hnone ⊢
          simp [h1] at hnone ⊢
          cases hpv : pv { height := h, hash := b.hash } with
          | some e => simp [hpv] at hnone
          | none =>
            cases hiv : iv { height := h, hash := b.hash } with
            | some e => simp [hpv, hiv] at hnone
            | none =>
              simp [hpv, hiv] at hnone ⊢
              exact ih hnone
      · simp [reindexLoop, hq, hh] at hnone

/-- The replay loop never passes height 1 to the block validators. -/
theorem reindexLoop_skips_genesis (q : BlockQueryM)
    (pv iv : RBlock → Option String) :
    ∀ (hs : List Nat) (h0 : Nat),
      h0 ∈ (reindexLoop q pv iv hs).validated → h0 ≠ 1 := by
  intro hs
  induction hs with
  | nil => intro h0 hmem; simp [reindexLoop] at hmem
  | cons h rest ih =>
    intro h0 hmem
    cases hq : q.getBlock h with
    | error e => simp [reindexLoop, hq] at hmem
    | ok b =>
      by_cases hh : h = b.height
      · rw [show b = ({ height := h, hash := b.hash } : RBlock) from by
          cases b; simp_all] at hq
        by_cases h1 : h = 1
        · subst h1
          simp only [reindexLoop, hq] at hmem
          simp at hmem
          exact ih h0 hmem
        · simp only [reindexLoop, hq] at hmem
          simp [h1] at hmem
          cases hpv : pv { height := h, hash := b.hash } with
          | some e =>
            simp [hpv] at hmem
            subst hmem; exact h1
          | none =>
            cases hiv : iv { height := h, hash := b.hash } with
            | some e =>
              simp [hpv, hiv] at hmem
              subst hmem; exact h1
            | none =>
              simp [hpv, hiv] at hmem
              cases hmem with
              | inl heq => subst heq; exact h1
              | inr hmem2 => exact ih h0 hmem2
      · simp [reindexLoop, hq, hh] at hmem

/-- `reindexBlocks` only adds the chain-validation verdict to the loop trace:
applied blocks and validated heights are those of the loop, and a clean result
means the loop itself was clean. -/
theorem reindexBlocks_trace (q : BlockQueryM) (pv iv : RBlock → Option String)
    (chainOk : List RBlock → Bool) (s e : Nat) :
    (reindexBlocks q pv iv chainOk s e).applied =
      (reindexLoop q pv iv (List.range' s (e + 1 - s))).applied ∧
    (reindexBlocks q pv iv chainOk s e).validated =
      (reindexLoop q pv iv (List.range' s (e + 1 - s))).validated ∧
    ((reindexBlocks q pv iv chainOk s e).err = none →
      (reindexLoop q pv iv (List.range' s (e + 1 - s))).err = none) := by
  unfold reindexBlocks
  set t := reindexLoop q pv iv (List.range' s (e + 1 - s)) with ht
  by_cases he : t.err.isSome
  · rw [if_pos he]
    exact ⟨rfl, rfl, fun h => h⟩
  · rw [if_neg he]
    by_cases hc : chainOk t.applied
    · rw [if_pos hc]
      exact ⟨rfl, rfl, fun h => h⟩
    · rw [if_neg hc]
      exact ⟨rfl, rfl, fun h => by simp at h⟩

/-- Evaluation: the restorer fails fast when the WSV is ahead of the log. -/
theorem restoreWsvOnce_overTop (info : TopBlockInfo) (q : BlockQueryM)
    (pv iv : RBlock → Option String) (chainOk : List RBlock → Bool)
    (hgt : q.topHeight < info.height) :
    restoreWsvOnce (some info) q pv iv chainOk =
      { applied := [], validated := [],
        err := some "WSV state is more recent than block storage" } := by
  simp only [restoreWsvOnce]
  rw [if_pos hgt]

/-- Evaluation: the restorer propagates a failed read of the WSV-height
block. -/
theorem restoreWsvOnce_readError (info : TopBlockInfo) (q : BlockQueryM)
    (pv iv : RBlock → Option String) (chainOk : List RBlock → Bool)
    (e : String) (hgt : ¬ q.topHeight < info.height)
    (hblk : q.getBlock info.height = .error e) :
    restoreWsvOnce (some info) q pv iv chainOk =
      { applied := [], validated := [], err := some e } := by
  simp only [restoreWsvOnce]
  rw [if_neg hgt, hblk]

/-- Evaluation: the restorer fails fast on a top-block hash mismatch. -/
theorem restoreWsvOnce_hashDiff (info : TopBlockInfo) (q : BlockQueryM)
    (pv iv : RBlock → Option String) (chainOk : List RBlock → Bool)
    (b : RBlock) (hgt : ¬ q.topHeight < info.height)
    (hblk : q.getBlock info.height = .ok b)
    (hhash : b.hash ≠ info.top_hash) :
    restoreWsvOnce (some info) q pv iv chainOk =
      { applied := [], validated := [],
        err := some "WSV top block hash does not match block storage" } := by
  simp only [restoreWsvOnce]
  rw [if_neg hgt, hblk]
  dsimp only
  rw [if_pos hhash]

/-- Evaluation: with a matching top block the restorer reindexes the heights
above the WSV height. -/
theorem restoreWsvOnce_hashOk (info : TopBlockInfo) (q : BlockQueryM)
    (pv iv : RBlock → Option String) (chainOk : List RBlock → Bool)
    (b : RBlock) (hgt : ¬ q.topHeight < info.height)
    (hblk : q.getBlock info.height = .ok b)
    (hhash : b.hash = info.top_hash) :
    restoreWsvOnce (some info) q pv iv chainOk =
      reindexBlocks q pv iv chainOk (info.height + 1) q.topHeight := by
  simp only [restoreWsvOnce]
  rw [if_neg hgt, hblk]
  dsimp only
  rw [if_neg (by simp [hhash])]

/-- Evaluation: with no persisted ledger state the restorer reindexes from
height 1. -/
theorem restoreWsvOnce_noState (q : BlockQueryM)
    (pv iv : RBlock → Option String) (chainOk : List RBlock → Bool) :
    restoreWsvOnce none q pv iv chainOk =
      reindexBlocks q pv iv chainOk 1 q.topHeight := rfl

/-- Claim C2: `restoreWsv` returns an error without replaying any block when
the persisted WSV height exceeds the block log top height, or when the block
stored at the WSV height has a hash different from the recorded top-block
hash; otherwise (a clean run) it replays exactly the blocks from
`wsv_height + 1` through the log top, with `wsv_height` taken as 0 when no
ledger state is persisted; and the block at height 1 is never passed to block
validation during replay. -/
theorem restoreWsv_c2 (wsvState : Option TopBlockInfo) (q : BlockQueryM)
    (pv iv : RBlock → Option String) (chainOk : List RBlock → Bool) :
    (∀ info, wsvState = some info → q.topHeight < info.height →
      (restoreWsvOnce wsvState q pv iv chainOk).applied = [] ∧
      (restoreWsvOnce wsvState q pv iv chainOk).err.isSome = true) ∧
    (∀ info b, wsvState = some info → info.height ≤ q.topHeight →
      q.getBlock info.height = .ok b → b.hash ≠ info.top_hash →
      (restoreWsvOnce wsvState q pv iv chainOk).applied = [] ∧
      (restoreWsvOnce wsvState q pv iv chainOk).err.isSome = true) ∧
    (∀ info, wsvState = some info →
      (restoreWsvOnce wsvState q pv iv chainOk).err = none →
      (restoreWsvOnce wsvState q pv iv chainOk).applied.map RBlock.height =
        List.range' (info.height + 1) (q.topHeight - info.height)) ∧
    (wsvState = none →
      (restoreWsvOnce wsvState q pv iv chainOk).err = none →
      (restoreWsvOnce wsvState q pv iv chainOk).applied.map RBlock.height =
        List.range' 1 q.topHeight) ∧
    (∀ h0, h0 ∈ (restoreWsvOnce wsvState q pv iv chainOk).validated →
      h0 ≠ 1) := by
  refine ⟨?_, ?_, ?_, ?_, ?_⟩
  · intro info hst hgt
    subst hst
    rw [restoreWsvOnce_overTop info q pv iv chainOk hgt]
    exact ⟨rfl, rfl⟩
  · intro info b hst hle hblk hhash
    subst hst
    rw [restoreWsvOnce_hashDiff info q pv iv chainOk b (by omega) hblk hhash]
    exact ⟨rfl, rfl⟩
  · intro info hst herr
    subst hst
    by_cases hgt : q.topHeight < info.height
    · rw [restoreWsvOnce_overTop info q pv iv chainOk hgt] at herr
      simp at herr
    · cases hblk : q.getBlock info.height with
      | error e =>
        rw [restoreWsvOnce_readError info q pv iv chainOk e hgt hblk] at herr
        simp at herr
      | ok b =>
        by_cases hhash : b.hash = info.top_hash
        · rw [restoreWsvOnce_hashOk info q pv iv chainOk b hgt hblk hhash]
            at herr ⊢
          obtain ⟨ha, -, he⟩ :=
            reindexBlocks_trace q pv iv chainOk (info.height + 1) q.topHeight
          rw [ha, reindexLoop_heights q pv iv _ (he herr)]
          congr 1
          omega
        · rw [restoreWsvOnce_hashDiff info q pv iv chainOk b hgt hblk hhash]
            at herr
          simp at herr
  · intro hst herr
    subst hst
    rw [restoreWsvOnce_noState q pv iv chainOk] at herr ⊢
    obtain ⟨ha, -, he⟩ := reindexBlocks_trace q pv iv chainOk 1 q.topHeight
    rw [ha, reindexLoop_heights q pv iv _ (he herr)]
    congr 1
  · intro h0 hmem
    cases wsvState with
    | none =>
      rw [restoreWsvOnce_noState q pv iv chainOk] at hmem
      obtain ⟨-, hv, -⟩ := reindexBlocks_trace q pv iv chainOk 1 q.topHeight
      rw [hv] at hmem
      exact reindexLoop_skips_genesis q pv iv _ h0 hmem
    | some info =>
      by_cases hgt : q.topHeight < info.height
      · rw [restoreWsvOnce_overTop info q pv iv chainOk hgt] at hmem
        simp at hmem
      · cases hblk : q.getBlock info.height with
        | error e =>
          rw [restoreWsvOnce_readError info q pv iv chainOk e hgt hblk] at hmem
          simp at hmem
        | ok b =>
          by_cases hhash : b.hash = info.top_hash
          · rw [restoreWsvOnce_hashOk info q pv iv chainOk b hgt hblk hhash]
              at hmem
            obtain ⟨-, hv, -⟩ :=
              reindexBlocks_trace q pv iv chainOk (info.height + 1) q.topHeight
            rw [hv] at hmem
            exact reindexLoop_skips_genesis q pv iv _ h0 hmem
          · rw [restoreWsvOnce_hashDiff info q pv iv chainOk b hgt hblk hhash]
              at hmem
            simp at hmem

/-- Witness for C2: a two-block log with no persisted state replays heights
1 and 2. -/
theorem restoreWsv_c2_witness :
    (restoreWsvOnce none
        ⟨fun h => if h = 1 then .ok ⟨1, 10⟩ else
          if h = 2 then .ok ⟨2, 20⟩ else .error "not found", 2⟩
        (fun _ => none) (fun _ => none) (fun _ => true)).applied.map
      RBlock.height = List.range' 1 2 :=
  (restoreWsv_c2 none _ _ _ _).2.2.2.1 rfl rfl

/-- Claim C3 (divergence): with restored height 100 and the block log reloaded
at top height 103 where blocks 101 and 102 are readable but 103 is truncated
mid-write, the shadowed `block_result` of the as-written probe loop keeps the
loop condition fixed on the first read, so the candidate decrements all the
way to 100 and NOTHING is replayed, whereas the probe the claim describes
stops at 102 and replays heights 101 and 102. -/
theorem waitProbe_c3_divergence :
    waitProbeCode (fun h => decide (h ≤ 102)) 100 103 = 100 ∧
    waitReplayHeights 100
      (waitProbeCode (fun h => decide (h ≤ 102)) 100 103) = [] ∧
    waitProbeIntended (fun h => decide (h ≤ 102)) 100 103 = 102 ∧
    waitReplayHeights 100
      (waitProbeIntended (fun h => decide (h ≤ 102)) 100 103) =
      [101, 102] := by
  decide

/-- Claim C4: with validation enabled, when the account's quorum record
exists, the applicable permission check passes and the signatory is present,
RemoveSignatory fails with `kCountNotEnough` exactly when the current
signatory count is at most the quorum, and otherwise deletes the signatory -
so a successful validated RemoveSignatory leaves at least `quorum`
signatories. -/
theorem removeSignatory_c4 (st : AccountSlice) (pk : String)
    (creatorIsTarget hasRolePerm hasGrantablePerm : Bool) (q : Nat)
    (hq : st.quorum = some q)
    (hperm : (if creatorIsTarget then hasRolePerm else hasGrantablePerm) =
      true)
    (hmem : pk ∈ st.signatories) :
    (st.signatories.length ≤ q →
      removeSignatory st pk creatorIsTarget hasRolePerm hasGrantablePerm
        true = .error .kCountNotEnough) ∧
    (q < st.signatories.length →
      removeSignatory st pk creatorIsTarget hasRolePerm hasGrantablePerm
        true = .ok { st with signatories := st.signatories.erase pk } ∧
      q ≤ (st.signatories.erase pk).length) := by
  have hlen : (st.signatories.erase pk).length = st.signatories.length - 1 :=
    List.length_erase_of_mem hmem
  cases creatorIsTarget with
  | true =>
    simp only [if_pos] at hperm
    constructor
    · intro hle
      simp [removeSignatory, hq, hperm, hmem, hle]
    · intro hlt
      refine ⟨by simp [removeSignatory, hq, hperm, hmem, Nat.not_le.mpr hlt,
        Nat.not_lt.mpr (Nat.le_of_lt hlt)], ?_⟩
      omega
  | false =>
    simp only [if_neg Bool.false_ne_true] at hperm
    constructor
    · intro hle
      simp [removeSignatory, hq, hperm, hmem, hle]
    · intro hlt
      refine ⟨by simp [removeSignatory, hq, hperm, hmem, Nat.not_le.mpr hlt,
        Nat.not_lt.mpr (Nat.le_of_lt hlt)], ?_⟩
      omega

/-- Witness for C4: an account with quorum 1 and signatories `a`, `b`
successfully removes `a`, leaving one signatory, which still covers the
quorum. -/
theorem removeSignatory_c4_witness :
    removeSignatory ⟨some 1, ["a", "b"]⟩ "a" true true false true =
      .ok ⟨some 1, ["b"]⟩ ∧
    (1 : Nat) ≤ ((["a", "b"] : List String).erase "a").length :=
  (removeSignatory_c4 ⟨some 1, ["a", "b"]⟩ "a" true true false 1 rfl rfl
    (by decide)).2 (by decide)


/-- A signatory count of exactly `2 ^ 31` makes the signed 32-bit counter of
`SetQuorum` wrap negative, so even `newQuorum = 1` fails. -/
theorem setQuorumCode_wrap (st : AccountSlice)
    (hlen : st.signatories.length = 2 ^ 31) :
    setQuorumCode st 1 true true true = .error .kCountNotEnough := by
  unfold setQuorumCode int32OfCount
  rw [hlen]
  norm_num

/-- Under the spec's unsigned 64-bit comparison, `newQuorum = 1` on an account
with `2 ^ 31` signatories succeeds. -/
theorem setQuorumSpecU64_ok (st : AccountSlice)
    (hlen : st.signatories.length = 2 ^ 31) :
    setQuorumSpecU64 st 1 true true true =
      .ok { st with quorum := some 1 } := by
  unfold setQuorumSpecU64
  rw [hlen]
  norm_num

/-- Claim C5 (divergence): on an account with `2 ^ 31` signatories,
`SetQuorum(newQuorum = 1)` must succeed under the claimed unsigned 64-bit
comparison (1 is at most the signatory count), but the source's signed 32-bit
`int counter` wraps to `-2 ^ 31`, `1 > counter` holds, and the command fails
with `kCountNotEnough`. -/
theorem setQuorum_c5_divergence :
    setQuorumCode ⟨some 2, List.replicate (2 ^ 31) "k"⟩ 1 true true true =
      .error .kCountNotEnough ∧
    setQuorumSpecU64 ⟨some 2, List.replicate (2 ^ 31) "k"⟩ 1 true true true =
      .ok ⟨some 1, List.replicate (2 ^ 31) "k"⟩ ∧
    (1 : Nat) ≤ (List.replicate (2 ^ 31) "k").length :=
  ⟨setQuorumCode_wrap _ (List.length_replicate _ _),
   setQuorumSpecU64_ok _ (List.length_replicate _ _),
   by rw [List.length_replicate]; norm_num⟩

/-- Deleting the entry stored under a present key shortens the association
list by exactly one. -/
theorem eraseKey_length (pk v : String) :
    ∀ l : List (String × String), l.lookup pk = some v →
      (eraseKey pk l).length + 1 = l.length := by
  intro l
  induction l with
  | nil => intro h; simp [List.lookup] at h
  | cons e rest ih =>
    obtain ⟨k, w⟩ := e
    intro h
    by_cases he : k = pk
    · simp [eraseKey, he]
    · have hbeq : (pk == k) = false := beq_eq_false_iff_ne.mpr (Ne.symm he)
      simp only [List.lookup, hbeq] at h
      have hr := ih h
      simp [eraseKey, he]
      omega

/-- Claim C6: under validation with the `kRemovePeer` permission, a present
peer and a present count satisfying the `count = number of stored peers`
invariant, RemovePeer fails with `kPeersCountIsNotEnough` when the stored
count is 1, leaving the peer set unchanged; otherwise it succeeds,
decrementing the count and deleting the address and TLS entries, so the new
count is at least 1 and again equals the number of stored peers. -/
theorem removePeer_c6 (st : PeerState) (pk addr : String) (c : Nat)
    (hpk : pk ≠ "")
    (hcount : st.peersCount = some c)
    (haddr : st.address.lookup pk = some addr)
    (hinv : c = st.address.length)
    (hlt : c < 2 ^ 64) :
    (c = 1 →
      removePeer st pk true true = .error .kPeersCountIsNotEnough ∧
      commandCommit st (removePeer st pk true true) = st) ∧
    (c ≠ 1 →
      removePeer st pk true true =
        .ok ⟨some (c - 1), eraseKey pk st.address, eraseKey pk st.tls⟩ ∧
      1 ≤ c - 1 ∧
      (eraseKey pk st.address).length = c - 1) := by
  have hlen := eraseKey_length pk addr st.address haddr
  constructor
  · intro h1
    have herr : removePeer st pk true true = .error .kPeersCountIsNotEnough := by
      simp [removePeer, hpk, haddr, hcount, h1]
    exact ⟨herr, by rw [herr]; rfl⟩
  · intro h1
    refine ⟨?_, by omega, by omega⟩
    rw [show c - 1 = (c + (2 ^ 64 - 1)) % 2 ^ 64 from by omega]
    simp [removePeer, hpk, haddr, hcount, h1]

/-- Witness for C6: removing peer `p` from a two-peer set succeeds, leaving
one peer, a count of 1, and no TLS entry for `p`. -/
theorem removePeer_c6_witness :
    removePeer ⟨some 2, [("p", "a"), ("q", "b")], [("p", "t")]⟩ "p" true
      true = .ok ⟨some 1, [("q", "b")], []⟩ :=
  ((removePeer_c6 ⟨some 2, [("p", "a"), ("q", "b")], [("p", "t")]⟩ "p" "a" 2
    (by decide) rfl (by decide) rfl (by norm_num)).2 (by decide)).1

/-- Claim C7 (counterexample): asset registered at precision 2, command amount
0.5 carried at precision 1 - the two precisions DIFFER, yet the command
succeeds with balance 1.00 - 0.5 = 0.50 instead of failing with error code 3:
the source only rejects when the asset precision is LESS than the amount
precision. -/
theorem subtract_c7_counterexample :
    subtractAssetQuantity ⟨some 2, some ⟨100, 2⟩⟩ "x#d" "u@d" ⟨5, 1⟩ true
      true = .ok ⟨some 2, some ⟨50, 2⟩⟩ ∧ (1 : Nat) ≠ 2 :=
  ⟨rfl, by decide⟩

/-- Claim C7 (amended): SubtractAssetQuantity fails with error code 3 and a
message carrying the expected (asset) precision whenever the command amount's
precision EXCEEDS the asset's registered precision, and fails with
`kInvalidAmount` whenever the resulting balance would be negative; on any
failure the stored balance is unchanged. -/
theorem subtractAssetQuantity_c7 (st : AssetSlice) (assetId creator : String)
    (amount : Amount) (prec : Nat) (hp : st.assetPrecision = some prec) :
    (prec < amount.precision →
      subtractAssetQuantity st assetId creator amount true true =
        .error (.raw 3,
          .precisionMismatch assetId creator prec amount.precision)) ∧
    (¬ prec < amount.precision →
      ((st.balance.getD ⟨0, prec⟩).sub amount).mantissa < 0 →
      subtractAssetQuantity st assetId creator amount true true =
        .error (.kInvalidAmount,
          .invalidAmount ((st.balance.getD ⟨0, prec⟩).sub amount).mantissa
            ((st.balance.getD ⟨0, prec⟩).sub amount).precision creator)) ∧
    (∀ e, subtractAssetQuantity st assetId creator amount true true =
        .error e →
      commandCommit st
        (subtractAssetQuantity st assetId creator amount true true) = st) := by
  refine ⟨?_, ?_, ?_⟩
  · intro hlt
    simp [subtractAssetQuantity, hp, hlt]
  · intro hge hneg
    cases hb : st.balance with
    | none =>
      rw [hb] at hneg
      simp only [Option.getD] at hneg
      simp [subtractAssetQuantity, hp, hge, hb,
        Amount.reprStartsWithSentinel, hneg]
    | some b =>
      rw [hb] at hneg
      simp only [Option.getD] at hneg
      simp [subtractAssetQuantity, hp, hge, hb,
        Amount.reprStartsWithSentinel, hneg]
  · intro e he
    unfold commandCommit
    rw [he]

/-- Witness for C7 (the spec's scenario 4): asset of precision 2,
SubtractAssetQuantity of 1.234 (precision 3) fails with error code 3 and a
message carrying expected precision 2. -/
theorem subtractAssetQuantity_c7_witness :
    subtractAssetQuantity ⟨some 2, some ⟨100, 2⟩⟩ "x#d" "u@d" ⟨1234, 3⟩ true
      true = .error (.raw 3, .precisionMismatch "x#d" "u@d" 2 3) :=
  (subtractAssetQuantity_c7 ⟨some 2, some ⟨100, 2⟩⟩ "x#d" "u@d" ⟨1234, 3⟩ 2
    rfl).1 (by norm_num)

/-- Claim C8 (divergence): a successful CompareAndSetAccountDetail - here
writing `v` into an absent detail, which correctly bumps `details_count` -
performs TWO `forAccountDetail` reads (the source re-reads the same key inside
the success branch), where the claim specifies a single read; a mismatching
old value fails with `kIncorrectOldValue` after the one read, leaving the
detail unchanged. -/
theorem compareAndSet_c8_doubleread :
    compareAndSetDetail ⟨true, none, none⟩ "v" none false true true =
      (.ok ⟨true, some "v", some 1⟩, 2) ∧
    compareAndSetDetail ⟨true, some "w", some 1⟩ "v" (some "x") false true
      true = (.error .kIncorrectOldValue, 1) :=
  ⟨rfl, rfl⟩

/-- Pages are whole-batch gulps: there is a cut index `k` such that the page
is the concatenation of the first `k` positioned batches, their total size
fits the room, and the reported next-batch info is exactly the first uncut
batch, which would overflow. -/
theorem collectPage_spec :
    ∀ (bs : List (List Nat)) (room : Nat),
      ∃ k, (collectPage bs room).1 = (bs.take k).flatten ∧
        batchesTxCount (bs.take k) ≤ room ∧
        (bs.drop k = [] → (collectPage bs room).2 = none) ∧
        (∀ nb rest2, bs.drop k = nb :: rest2 →
          (collectPage bs room).2 =
            some ⟨nb.head?.getD 0, nb.length⟩ ∧
          room < batchesTxCount (bs.take k) + nb.length) := by
  intro bs
  induction bs with
  | nil =>
    intro room
    exact ⟨0, rfl, by simp [batchesTxCount], fun _ => rfl,
      fun nb rest2 h => by simp at h⟩
  | cons b rest ih =>
    intro room
    by_cases hfit : b.length ≤ room
    · obtain ⟨k, h1, h2, h3, h4⟩ := ih (room - b.length)
      refine ⟨k + 1, ?_, ?_, ?_, ?_⟩
      · simp [collectPage, hfit, h1]
      · simp only [List.take_succ_cons, batchesTxCount, List.map_cons,
          List.sum_cons]
        simp only [batchesTxCount] at h2
        omega
      · intro hd
        simp only [List.drop_succ_cons] at hd
        simp [collectPage, hfit, h3 hd]
      · intro nb rest2 hd
        simp only [List.drop_succ_cons] at hd
        obtain ⟨hi, ho⟩ := h4 nb rest2 hd
        refine ⟨by simp [collectPage, hfit, hi], ?_⟩
        simp only [List.take_succ_cons, batchesTxCount, List.map_cons,
          List.sum_cons]
        simp only [batchesTxCount] at ho
        omega
    · refine ⟨0, by simp [collectPage, hfit], by simp [batchesTxCount],
        ?_, ?_⟩
      · intro hd; simp at hd
      · intro nb rest2 hd
        simp only [List.drop_zero] at hd
        cases hd
        refine ⟨by simp [collectPage, hfit], ?_⟩
        simp only [List.take_zero, batchesTxCount, List.map_nil,
          List.sum_nil]
        omega

/-- Claim C9: getPendingTransactions returns whole batches in insertion
order - every successful page is the concatenation of a prefix of the stored
batches whose total size fits the page, `next_batch_info` carries the first
uncut batch's first-transaction hash and size (and that batch would overflow),
and `all_transactions_size` is the creator's total; in particular a page size
equal to a stored batch's size returns exactly that batch with no
`next_batch_info`, and page size 1 on a 2-transaction batch returns zero
transactions with `next_batch_info.batch_size = 2`. -/
theorem getPendingTransactions_c9 (batches : List (List Nat))
    (pageSize : Nat) (b : List Nat) :
    (∀ resp, getPendingTransactions batches pageSize none = .ok resp →
      resp.all_transactions_size = batchesTxCount batches ∧
      ∃ k, resp.transactions = (batches.take k).flatten ∧
        batchesTxCount (batches.take k) ≤ pageSize ∧
        (batches.drop k = [] → resp.next_batch_info = none) ∧
        (∀ nb rest2, batches.drop k = nb :: rest2 →
          resp.next_batch_info = some ⟨nb.head?.getD 0, nb.length⟩ ∧
          pageSize < batchesTxCount (batches.take k) + nb.length)) ∧
    (getPendingTransactions [b] b.length none =
      .ok ⟨b, b.length, none⟩) ∧
    (b.length = 2 →
      getPendingTransactions [b] 1 none =
        .ok ⟨[], 2, some ⟨b.head?.getD 0, 2⟩⟩) := by
  refine ⟨?_, ?_, ?_⟩
  · intro resp h
    unfold getPendingTransactions at h
    dsimp only at h
    injection h with h
    subst h
    refine ⟨rfl, ?_⟩
    obtain ⟨k, h1, h2, h3, h4⟩ := collectPage_spec batches pageSize
    exact ⟨k, h1, h2, h3, h4⟩
  · simp [getPendingTransactions, collectPage, batchesTxCount]
  · intro hlen
    simp [getPendingTransactions, collectPage, hlen, batchesTxCount]

/-- Witness for C9: one stored batch of two transactions; page size 2 returns
the whole batch with no next-batch info, page size 1 returns no transactions
and next-batch info with batch size 2. -/
theorem getPendingTransactions_c9_witness :
    getPendingTransactions [[7, 8]] 2 none = .ok ⟨[7, 8], 2, none⟩ ∧
    getPendingTransactions [[7, 8]] 1 none =
      .ok ⟨[], 2, some ⟨7, 2⟩⟩ :=
  ⟨(getPendingTransactions_c9 [[7, 8]] 2 [7, 8]).2.1,
   (getPendingTransactions_c9 [[7, 8]] 1 [7, 8]).2.2 rfl⟩

/-- Claim C10: `execute` is total at its public interface - for every
behaviour of the externals it returns either success or a tagged
`CommandError`; any exception thrown inside the try body, including one from
the validation-time permission lookup or from applying the command, is
converted into a `CommandError` with the `kException` code and is never
propagated. -/
theorem executeCommand_c10 (env : ExecuteEnv) (v : Bool) :
    (executeCommand env v = .ok () ∨
      ∃ ce, executeCommand env v = .error ce) ∧
    (∀ e, executeTryBody env v = .thrown e →
      executeCommand env v =
        .error ⟨env.commandToString, .kException, e⟩) ∧
    (∀ e, v = true → env.accountPermissions = .thrown e →
      executeCommand env v =
        .error ⟨env.commandToString, .kException, e⟩) ∧
    (∀ e perms, v = true → env.accountPermissions = .ret (.ok perms) →
      env.applyCommand perms true = .thrown e →
      executeCommand env v =
        .error ⟨env.commandToString, .kException, e⟩) ∧
    (∀ e, v = false → env.applyCommand 0 false = .thrown e →
      executeCommand env v =
        .error ⟨env.commandToString, .kException, e⟩) := by
  refine ⟨?_, ?_, ?_, ?_, ?_⟩
  · cases hb : executeTryBody env v with
    | ret r =>
      cases r with
      | ok u => left; simp [executeCommand, hb]
      | error ce => right; exact ⟨ce, by simp [executeCommand, hb]⟩
    | thrown e =>
      right
      exact ⟨⟨env.commandToString, .kException, e⟩, by
        simp [executeCommand, hb]⟩
  · intro e hb
    simp [executeCommand, hb]
  · intro e hv hperm
    subst hv
    have hb : executeTryBody env true = .thrown e := by
      simp [executeTryBody, hperm]
    simp [executeCommand, hb]
  · intro e perms hv hperm happ
    subst hv
    have hb : executeTryBody env true = .thrown e := by
      simp [executeTryBody, hperm, happ]
    simp [executeCommand, hb]
  · intro e hv happ
    subst hv
    have hb : executeTryBody env false = .thrown e := by
      simp [executeTryBody, happ]
    simp [executeCommand, hb]

/-- Witness for C10: a permission lookup that throws `boom` under validation
yields a `CommandError` with the `kException` code rather than an escaping
exception. -/
theorem executeCommand_c10_witness :
    executeCommand ⟨"cmd", .thrown "boom", fun _ _ => .ret (.ok ())⟩ true =
      .error ⟨"cmd", .kException, "boom"⟩ :=
  (executeCommand_c10 ⟨"cmd", .thrown "boom", fun _ _ => .ret (.ok ())⟩
    true).2.2.1 "boom" rfl rfl
